import Mathlib

/-!
A shallow embedding of the CSCE412 load-balancer simulation
(`src/IPBlocker.cpp`, `src/Request.cpp`, `src/WebServer.cpp`,
`src/LoadBalancer.cpp`, `src/Config.cpp`), together with theorems that
settle the specification claims about it.

Modelling conventions:
- machine `int` fields are `Int` (with `Nat` for values that are manifestly
  non-negative counters or container sizes),
- `std::queue<Request>` is a `List Request` with the front at the head,
- `std::vector<WebServer*>` is a `List WebServer` in pool order,
- fallible operations return `Option`,
- the random generator (`std::mt19937` plus `uniform_int_distribution`) is
  abstracted as an `Rng` record of pure state-passing draw functions over an
  abstract generator state `Nat`; every theorem quantifies over the record,
- logging (`writeLog`, the log file, `statusPrintInterval` output) is pure
  output and is omitted; it reads but never writes the simulation state.
-/

namespace LBSim

/-! ## IPBlocker (src/IPBlocker.cpp)

`IPBlocker::parseIp` tokenizes the address with
`std::getline(ss, token, '.')`.  `gtokensGo` reproduces that tokenizer on the
character list: a token is emitted for every delimiter-terminated segment, a
final segment at end-of-input is emitted as well, but a single trailing
delimiter produces no extra empty token (after the delimiter is consumed the
stream is at end-of-file, so the next `getline` extracts nothing and fails).
An empty input produces no token at all. -/

def gtokensGo : List Char → List Char → List (List Char)
  | [], cur => [cur.reverse]
  | c :: cs, cur =>
    if c = '.' then
      match cs with
      | [] => [cur.reverse]
      | _ :: _ => cur.reverse :: gtokensGo cs []
    else gtokensGo cs (c :: cur)

def gtokens : List Char → List (List Char)
  | [] => []
  | c :: cs => gtokensGo (c :: cs) []

/-- Numeric value of an all-digit token; models `atoi` on the tokens that
reach it in `parseIp` (the code has already checked every character is a
decimal digit, and any value above 255 is rejected right after). -/
def digitsToNat (t : List Char) : Nat :=
  t.foldl (fun a c => a * 10 + (c.toNat - 48)) 0

/-- One iteration body of the `while (std::getline(...))` loop of
`IPBlocker::parseIp`: reject an empty token, a token with a non-digit
character, or a value outside `[0, 255]`. -/
def parseOctet (t : List Char) : Option Nat :=
  if t.isEmpty then none
  else if !(t.all Char.isDigit) then none
  else if digitsToNat t > 255 then none
  else some (digitsToNat t)

/-- The token loop of `IPBlocker::parseIp`: each token must be a valid
octet, and the whole parse fails as soon as one is not (the C++ loop
returns `false` at the first offending token; the boolean outcome is the
same). -/
def parseOctets : List (List Char) → Option (List Nat)
  | [] => some []
  | t :: ts =>
    match parseOctet t, parseOctets ts with
    | some v, some vs => some (v :: vs)
    | _, _ => none

/-- `IPBlocker::parseIp`.  The loop also rejects a fifth token (`i >= 4`)
and requires exactly four octets (`i != 4`); both are captured by the
pattern requiring the token list to have length four with every octet
valid.  The packed value is
`(o0 << 24) | (o1 << 16) | (o2 << 8) | o3` with each octet below 256. -/
def parseIp (ip : String) : Option Nat :=
  match parseOctets (gtokens ip.data) with
  | some [a, b, c, d] => some (a * 16777216 + b * 65536 + c * 256 + d)
  | _ => none

/-- `IpRange` of src/IPBlocker.h.  The source `end` field is renamed `stop`
(`end` is a Lean keyword). -/
structure IpRange where
  start : Nat
  stop : Nat
deriving Repr, DecidableEq

/-- `IPBlocker::isBlocked`: a parse failure is blocked; otherwise the packed
value is tested against every stored inclusive range. -/
def isBlocked (ranges : List IpRange) (ip : String) : Bool :=
  match parseIp ip with
  | none => true
  | some v => ranges.any (fun r => decide (r.start ≤ v ∧ v ≤ r.stop))

/-! Spec-side well-formedness predicates, written from the claim's words
("a parseable dotted-decimal IPv4 address of exactly four octets each in
[0,255]") for comparison with the source parser.  `splitAllGo` is the
ordinary full split on `'.'`, in which a trailing dot yields a trailing
empty segment. -/

def splitAllGo : List Char → List Char → List (List Char)
  | [], cur => [cur.reverse]
  | c :: cs, cur =>
    if c = '.' then cur.reverse :: splitAllGo cs []
    else splitAllGo cs (c :: cur)

def splitAll (cs : List Char) : List (List Char) := splitAllGo cs []

def octetOk (t : List Char) : Bool :=
  !t.isEmpty && t.all Char.isDigit && decide (digitsToNat t ≤ 255)

/-- Written from the claim's words: exactly four dot-separated all-digit
octets, each in `[0, 255]`. -/
def isWellFormedIPv4 (s : String) : Bool :=
  match splitAll s.data with
  | [a, b, c, d] => octetOk a && octetOk b && octetOk c && octetOk d
  | _ => false

/-- The amended well-formedness class: four valid octets, optionally
followed by one trailing dot (a trailing dot makes the full split end in an
empty fifth segment). -/
def isWellFormedIPv4TD (s : String) : Bool :=
  match splitAll s.data with
  | [a, b, c, d] => octetOk a && octetOk b && octetOk c && octetOk d
  | [a, b, c, d, e] => octetOk a && octetOk b && octetOk c && octetOk d && e.isEmpty
  | _ => false

/-! ## Request (src/Request.h, src/Request.cpp, spec §4.1) -/

structure Request where
  id : Nat
  ipIn : String
  ipOut : String
  timeRequired : Int
  jobType : Char
deriving Repr, DecidableEq

/-- Abstract model of the simulation's random source (`std::mt19937`
state plus `std::uniform_int_distribution` sampling).  The generator state
is an abstract `Nat`; `seedInit` models the `std::mt19937(seed)`
constructor, `drawNat lo hi g` / `drawInt lo hi g` model sampling a
distribution over `[lo, hi]` from state `g`, returning the value and the
advanced state.  Theorems quantify over the whole record, so they hold for
every concrete generator, the Mersenne twister included. -/
structure Rng where
  seedInit : Nat → Nat
  drawNat : Nat → Nat → Nat → Nat × Nat
  drawInt : Int → Int → Nat → Int × Nat

/-- Modelled from the spec: `Request::randomIp` as used by the
four-argument `Request::randomRequest` overload (spec §4.1: "Source and
destination addresses are independently generated as four octets each drawn
uniformly from [0,255], formatted as dotted-decimal"). -/
def randomIp (R : Rng) (g : Nat) : String × Nat :=
  let (a, g1) := R.drawNat 0 255 g
  let (b, g2) := R.drawNat 0 255 g1
  let (c, g3) := R.drawNat 0 255 g2
  let (d, g4) := R.drawNat 0 255 g3
  (toString a ++ "." ++ toString b ++ "." ++ toString c ++ "." ++ toString d, g4)

/-- Modelled from the spec: the four-argument overload
`Request::randomRequest(nextId, generator, minTime, maxTime)` invoked by
`LoadBalancer::generateRequest` (src/LoadBalancer.cpp line 269) has no
definition under src — src/Request.cpp holds only a three-argument draft
built on the global `rand()`.  Spec §4.1: the cost is drawn uniformly from
the inclusive range `[minCost, maxCost]` with the caller-side clamp
`maxCost < minCost ⇒ maxCost = minCost`, the two addresses are generated
independently, and the job type is chosen uniformly between the two tags. -/
def randomRequest (R : Rng) (nextId : Nat) (g : Nat) (minTime maxTime : Int) :
    Request × Nat :=
  let (ipIn, g1) := randomIp R g
  let (ipOut, g2) := randomIp R g1
  let (t, g3) := R.drawInt minTime (if maxTime < minTime then minTime else maxTime) g2
  let (j, g4) := R.drawNat 0 1 g3
  ({ id := nextId, ipIn := ipIn, ipOut := ipOut, timeRequired := t,
     jobType := if j = 0 then 'P' else 'S' }, g4)

/-! ## WebServer (src/WebServer.cpp) -/

structure WebServer where
  serverId : String
  isBusy : Bool
  remainingTime : Int
  currentRequest : Option Request
  completedRequests : Nat
deriving Repr, DecidableEq

/-- The `WebServer(const std::string& id)` constructor. -/
def WebServer.create (id : String) : WebServer :=
  { serverId := id, isBusy := false, remainingTime := 0,
    currentRequest := none, completedRequests := 0 }

/-- `WebServer::processRequest`: a null request pointer (modelled `none`) or
a busy server is rejected without mutation; otherwise the request is copied
in, the countdown is set, and the server becomes busy. -/
def WebServer.processRequest (w : WebServer) (request : Option Request) :
    WebServer × Bool :=
  match request with
  | none => (w, false)
  | some r =>
    if w.isBusy then (w, false)
    else ({ w with
            currentRequest := some r, remainingTime := r.timeRequired,
            isBusy := true }, true)

/-- `WebServer::processTick`: idle servers are a no-op; otherwise the timer
is decremented, and on reaching `≤ 0` the slot is cleared, the completion
counter incremented, and the server returns to idle, signalling `true`. -/
def WebServer.processTick (w : WebServer) : WebServer × Bool :=
  if !w.isBusy then (w, false)
  else if w.remainingTime - 1 ≤ 0 then
    ({ w with
       remainingTime := w.remainingTime - 1, currentRequest := none,
       isBusy := false, completedRequests := w.completedRequests + 1 }, true)
  else ({ w with remainingTime := w.remainingTime - 1 }, false)

/-- `WebServer::isAvailable`. -/
def WebServer.isAvailable (w : WebServer) : Bool := !w.isBusy

/-! ## Config and stats (src/Config.h draft fields plus the fields read by
src/LoadBalancer.cpp and assigned by src/Config.cpp; `logFilePath` and the
blocked-range strings are reporting concerns and are carried separately as
the already-parsed `List IpRange`). -/

structure Config where
  initialServers : Int
  simulationCycles : Int
  initialQueueMultiplier : Int
  minQueuePerServer : Int
  maxQueuePerServer : Int
  scalingCooldownCycles : Int
  minRequestTime : Int
  maxRequestTime : Int
  arrivalProbabilityPercent : Int
  maxNewRequestsPerCycle : Int
  statusPrintInterval : Int
  seed : Nat
deriving Repr, DecidableEq

structure SimulationStats where
  generatedRequests : Nat
  acceptedRequests : Nat
  blockedRequests : Nat
  completedRequests : Nat
  addedServers : Nat
  removedServers : Nat
  peakQueueSize : Nat
  finalQueueSize : Nat
  finalServerCount : Nat
deriving Repr, DecidableEq

/-- The `SimulationStats()` constructor zeroes every counter. -/
def SimulationStats.init : SimulationStats :=
  { generatedRequests := 0, acceptedRequests := 0, blockedRequests := 0,
    completedRequests := 0, addedServers := 0, removedServers := 0,
    peakQueueSize := 0, finalQueueSize := 0, finalServerCount := 0 }

/-- The mutable state of a `LoadBalancer`.  `trace` is a ghost field
recording, in order, every request produced by the request factory (the
"sequence of addresses/costs from RequestFactory" of the determinism
claim); no engine decision reads it. -/
structure LBState where
  servers : List WebServer
  requestQueue : List Request
  cooldownTimer : Int
  nextRequestId : Nat
  gen : Nat
  stats : SimulationStats
  trace : List Request
deriving Repr, DecidableEq

/-! ## LoadBalancer operations (src/LoadBalancer.cpp) -/

/-- `LoadBalancer::addRequest`: count the request as generated, then either
count it blocked (source address rejected by the firewall) or push it on
the queue and count it accepted.  The `ipBlocker_ != nullptr` guard is
always satisfied (the constructor allocates the blocker unconditionally). -/
def addRequest (ranges : List IpRange) (st : LBState) (request : Request) :
    LBState :=
  let st1 := { st with stats :=
    { st.stats with generatedRequests := st.stats.generatedRequests + 1 } }
  if isBlocked ranges request.ipIn then
    { st1 with stats :=
      { st1.stats with blockedRequests := st1.stats.blockedRequests + 1 } }
  else
    { st1 with
      requestQueue := st1.requestQueue ++ [request],
      stats :=
        { st1.stats with acceptedRequests := st1.stats.acceptedRequests + 1 } }

/-- The dispatch loop of `LoadBalancer::processTick`: walk the pool in
order, break as soon as the queue is empty, and hand the front request to
each available server (`processRequest` on an available server with a
non-null request always succeeds). -/
def dispatchLoop : List WebServer → List Request →
    List WebServer × List Request
  | [], q => ([], q)
  | s :: ss, [] => (s :: ss, [])
  | s :: ss, r :: q =>
    if s.isAvailable then
      let s2 := (WebServer.processRequest s (some r)).1
      let rest := dispatchLoop ss q
      (s2 :: rest.1, rest.2)
    else
      let rest := dispatchLoop ss (r :: q)
      (s :: rest.1, rest.2)

/-- The completion loop of `LoadBalancer::processTick`: advance every
server one tick and count the completions. -/
def tickServers : List WebServer → List WebServer × Nat
  | [] => ([], 0)
  | s :: ss =>
    let p := WebServer.processTick s
    let rest := tickServers ss
    (p.1 :: rest.1, (if p.2 then 1 else 0) + rest.2)

/-- `LoadBalancer::processTick`. -/
def processTickLB (st : LBState) : LBState :=
  let d := dispatchLoop st.servers st.requestQueue
  let t := tickServers d.1
  { st with
    servers := t.1, requestQueue := d.2,
    stats := { st.stats with
      completedRequests := st.stats.completedRequests + t.2 } }

/-- `LoadBalancer::addServer`: append a fresh server whose id is the new
pool size rendered in decimal. -/
def addServer (st : LBState) : LBState :=
  { st with servers :=
      st.servers ++ [WebServer.create (toString (st.servers.length + 1))] }

/-- `LoadBalancer::removeServer`: `std::find_if` over the reverse iterators
locates the last available server in pool order; it is erased.  `none` is
returned when every server is busy. -/
def removeLastAvailable : List WebServer → Option (List WebServer)
  | [] => none
  | s :: ss =>
    match removeLastAvailable ss with
    | some ss2 => some (s :: ss2)
    | none => if s.isAvailable then some ss else none

/-- `LoadBalancer::balanceLoad`. -/
def balanceLoad (cfg : Config) (st : LBState) : LBState :=
  if st.cooldownTimer > 0 then
    { st with cooldownTimer := st.cooldownTimer - 1 }
  else
    let serverCount : Int := st.servers.length
    let queueSize : Int := st.requestQueue.length
    let lowerThreshold := cfg.minQueuePerServer * serverCount
    let upperThreshold := cfg.maxQueuePerServer * serverCount
    if queueSize > upperThreshold then
      let st2 := addServer st
      { st2 with
        stats := { st2.stats with addedServers := st2.stats.addedServers + 1 },
        cooldownTimer := cfg.scalingCooldownCycles }
    else if queueSize < lowerThreshold ∧ serverCount > 1 then
      match removeLastAvailable st.servers with
      | some srv =>
        { st with
          servers := srv,
          stats := { st.stats with
            removedServers := st.stats.removedServers + 1 },
          cooldownTimer := cfg.scalingCooldownCycles }
      | none => st
    else st

/-- `LoadBalancer::generateRequest`: draw a request from the factory with
the current id counter (post-incremented) and the shared generator.  The
ghost `trace` records the produced request. -/
def generateRequest (R : Rng) (cfg : Config) (st : LBState) :
    Request × LBState :=
  let p := randomRequest R st.nextRequestId st.gen cfg.minRequestTime
    cfg.maxRequestTime
  (p.1, { st with
          gen := p.2, nextRequestId := st.nextRequestId + 1,
          trace := st.trace ++ [p.1] })

/-- Generate one request and run it through admission. -/
def addGenerated (R : Rng) (cfg : Config) (ranges : List IpRange)
    (st : LBState) : LBState :=
  let p := generateRequest R cfg st
  addRequest ranges p.2 p.1

/-- The `for (int i = 0; i < count; ++i) addRequest(generateRequest())`
loop of `LoadBalancer::maybeAddNewRequests`. -/
def addGeneratedN (R : Rng) (cfg : Config) (ranges : List IpRange) :
    Nat → LBState → LBState
  | 0, st => st
  | n + 1, st => addGeneratedN R cfg ranges n (addGenerated R cfg ranges st)

/-- `LoadBalancer::maybeAddNewRequests`: one draw from `[1, 100]` decides
whether arrivals happen; if so a count is drawn from
`[1, max 1 maxNewRequestsPerCycle]` and that many requests are generated
and admitted.  (`countDist` is constructed eagerly in the source but only
sampled — only advancing the generator — inside the branch.) -/
def maybeAddNewRequests (R : Rng) (cfg : Config) (ranges : List IpRange)
    (st : LBState) : LBState :=
  let p := R.drawNat 1 100 st.gen
  if (p.1 : Int) ≤ cfg.arrivalProbabilityPercent then
    let q := R.drawNat 1 (max 1 cfg.maxNewRequestsPerCycle).toNat p.2
    addGeneratedN R cfg ranges q.1 { st with gen := q.2 }
  else { st with gen := p.2 }

/-- The inline peak update of `LoadBalancer::run` (lines 196-197):
`if ((int)requestQueue_.size() > stats_.peakQueueSize) peakQueueSize = size`. -/
def updatePeak (st : LBState) : LBState :=
  if st.requestQueue.length > st.stats.peakQueueSize then
    { st with stats :=
      { st.stats with peakQueueSize := st.requestQueue.length } }
  else st

/-- One iteration of the cycle loop of `LoadBalancer::run`: arrivals,
dispatch-and-tick, peak sample, scaling.  (`currentTime_` and the periodic
status print feed only log output.) -/
def tickOnce (R : Rng) (cfg : Config) (ranges : List IpRange)
    (st : LBState) : LBState :=
  balanceLoad cfg (updatePeak (processTickLB (maybeAddNewRequests R cfg ranges st)))

def iterateTicks (R : Rng) (cfg : Config) (ranges : List IpRange) :
    Nat → LBState → LBState
  | 0, st => st
  | n + 1, st => iterateTicks R cfg ranges n (tickOnce R cfg ranges st)

/-- The `while ((int)requestQueue_.size() < targetQueueSize)` loop of
`LoadBalancer::fillInitialQueue`, given enough fuel to cover the
iterations actually executed (the source loop is unbounded; every theorem
about it supplies fuel explicitly). -/
def fillLoop (R : Rng) (cfg : Config) (ranges : List IpRange) :
    Nat → Int → LBState → LBState
  | 0, _, st => st
  | fuel + 1, target, st =>
    if (st.requestQueue.length : Int) < target then
      fillLoop R cfg ranges fuel target (addGenerated R cfg ranges st)
    else st

/-- `LoadBalancer::fillInitialQueue`: fill to
`initialServers * initialQueueMultiplier`, then seed `peakQueueSize` with
the resulting queue size. -/
def fillInitialQueue (R : Rng) (cfg : Config) (ranges : List IpRange)
    (fuel : Nat) (st : LBState) : LBState :=
  let target : Int := cfg.initialServers * cfg.initialQueueMultiplier
  let st1 := fillLoop R cfg ranges fuel target st
  { st1 with stats :=
    { st1.stats with peakQueueSize := st1.requestQueue.length } }

/-- The clamp at the top of `LoadBalancer::initializeServers`
(`if (config_.initialServers < 1) config_.initialServers = 1`) — it
mutates the stored config, so the clamped value is also the one
`fillInitialQueue` reads. -/
def clampInit (cfg : Config) : Config :=
  if cfg.initialServers < 1 then { cfg with initialServers := 1 } else cfg

def addServers : Nat → LBState → LBState
  | 0, st => st
  | n + 1, st => addServers n (addServer st)

/-- The `LoadBalancer` constructor: all counters zero, and the generator
seeded from the entropy source (`std::random_device`) exactly when
`seed == 0`, from the configured seed otherwise.  The member initializers
(`nextRequestId_ = 1`, `cooldownTimer_ = 0`, `currentTime_ = 0`) live in
the repository's current header, which is absent from src (src holds a
stale draft of LoadBalancer.h); the values follow the spec's EngineState
(§3: ids strictly increasing from the start, cooldown only ever set by a
scaling event). -/
def initialState (R : Rng) (cfg : Config) (entropy : Nat) : LBState :=
  { servers := [], requestQueue := [], cooldownTimer := 0,
    nextRequestId := 1,
    gen := if cfg.seed = 0 then R.seedInit entropy else R.seedInit cfg.seed,
    stats := SimulationStats.init, trace := [] }

/-- The state right after `initializeServers(); fillInitialQueue();` in
`LoadBalancer::run`. -/
def postFillState (R : Rng) (cfg : Config) (ranges : List IpRange)
    (entropy fuel : Nat) : LBState :=
  let c := clampInit cfg
  fillInitialQueue R c ranges fuel
    (addServers c.initialServers.toNat (initialState R c entropy))

/-- The end-of-run snapshot (`finalQueueSize`, `finalServerCount`). -/
def finishStats (st : LBState) : LBState :=
  { st with stats := { st.stats with
      finalQueueSize := st.requestQueue.length,
      finalServerCount := st.servers.length } }

/-- `LoadBalancer::run` (logging elided): initialize the pool, pre-fill the
queue, execute `simulationCycles` cycles, snapshot the final sizes. -/
def runState (R : Rng) (cfg : Config) (ranges : List IpRange)
    (entropy fuel : Nat) : LBState :=
  let c := clampInit cfg
  finishStats (iterateTicks R c ranges c.simulationCycles.toNat
    (postFillState R cfg ranges entropy fuel))

/-- The engine state after `n` completed cycles of the run. -/
def lbStates (R : Rng) (cfg : Config) (ranges : List IpRange)
    (entropy fuel n : Nat) : LBState :=
  iterateTicks R (clampInit cfg) ranges n (postFillState R cfg ranges entropy fuel)

/-! ## Derived notions used by the claims -/

/-- The number of idle workers of a pool. -/
def countAvail (servers : List WebServer) : Nat :=
  servers.countP (fun s => s.isAvailable)

/-- The requests assigned during a dispatch pass, read off positionally
from the pool before and after the pass: a server that was available and
is now busy received its `currentRequest`. -/
def newlyAssigned (before after : List WebServer) : List Request :=
  (before.zip after).filterMap
    (fun p => if p.1.isAvailable && !p.2.isAvailable then p.2.currentRequest
              else none)

/-- The number of scaling events recorded so far. -/
def scaleEvents (st : LBState) : Nat :=
  st.stats.addedServers + st.stats.removedServers

/-- A scaling event (scale-up or scale-down) occurs during cycle `n + 1`
of the run, i.e. between the `n`-th and `(n+1)`-st recorded states. -/
def eventAt (R : Rng) (cfg : Config) (ranges : List IpRange)
    (entropy fuel n : Nat) : Prop :=
  scaleEvents (lbStates R cfg ranges entropy fuel (n + 1))
    ≠ scaleEvents (lbStates R cfg ranges entropy fuel n)

instance (R : Rng) (cfg : Config) (ranges : List IpRange)
    (entropy fuel n : Nat) : Decidable (eventAt R cfg ranges entropy fuel n) :=
  inferInstanceAs (Decidable (_ ≠ _))

/-- The stream of the first `n` requests the factory produces from
generator state `g` and id counter `nid`. -/
def genStream (R : Rng) (cfg : Config) : Nat → Nat → Nat → List Request
  | _, _, 0 => []
  | g, nid, n + 1 =>
    let p := randomRequest R nid g cfg.minRequestTime cfg.maxRequestTime
    p.1 :: genStream R cfg p.2 (nid + 1) n

/-- How many of a list of requests the admission filter admits. -/
def admittedCount (ranges : List IpRange) (l : List Request) : Nat :=
  l.countP (fun r => !isBlocked ranges r.ipIn)

/-! ## Dispatch-phase lemmas (claim C1) -/

theorem dispatchLoop_cons_avail {w : WebServer} {ss : List WebServer}
    {r : Request} {q : List Request} (hw : w.isAvailable = true) :
    dispatchLoop (w :: ss) (r :: q)
      = ((WebServer.processRequest w (some r)).1 :: (dispatchLoop ss q).1,
         (dispatchLoop ss q).2) := by
  simp [dispatchLoop, hw]

theorem dispatchLoop_cons_busy {w : WebServer} {ss : List WebServer}
    {r : Request} {q : List Request} (hw : w.isAvailable = false) :
    dispatchLoop (w :: ss) (r :: q)
      = (w :: (dispatchLoop ss (r :: q)).1, (dispatchLoop ss (r :: q)).2) := by
  simp [dispatchLoop, hw]

theorem countAvail_cons_avail {w : WebServer} {ss : List WebServer}
    (hw : w.isAvailable = true) :
    countAvail (w :: ss) = countAvail ss + 1 := by
  simp [countAvail, List.countP_cons, hw]

theorem countAvail_cons_busy {w : WebServer} {ss : List WebServer}
    (hw : w.isAvailable = false) :
    countAvail (w :: ss) = countAvail ss := by
  simp [countAvail, List.countP_cons, hw]

theorem dispatchLoop_queue_eq (servers : List WebServer) :
    ∀ q : List Request,
      (dispatchLoop servers q).2 = q.drop (min (countAvail servers) q.length) := by
  induction servers with
  | nil => intro q; simp [dispatchLoop, countAvail]
  | cons w ss ih =>
    intro q
    cases q with
    | nil => simp [dispatchLoop]
    | cons r q' =>
      cases hw : w.isAvailable with
      | true =>
        rw [dispatchLoop_cons_avail hw, countAvail_cons_avail hw,
          List.length_cons, Nat.succ_min_succ, List.drop_succ_cons]
        exact ih q'
      | false =>
        rw [dispatchLoop_cons_busy hw, countAvail_cons_busy hw]
        exact ih (r :: q')

theorem newlyAssigned_refl (l : List WebServer) : newlyAssigned l l = [] := by
  induction l with
  | nil => simp [newlyAssigned]
  | cons w ss ih =>
    simp only [newlyAssigned, List.zip_cons_cons, List.filterMap_cons]
    cases hw : w.isAvailable <;> simpa [newlyAssigned, hw] using ih

theorem dispatchLoop_assigned_eq (servers : List WebServer) :
    ∀ q : List Request,
      newlyAssigned servers (dispatchLoop servers q).1
        = q.take (min (countAvail servers) q.length) := by
  induction servers with
  | nil => intro q; simp [dispatchLoop, newlyAssigned, countAvail]
  | cons w ss ih =>
    intro q
    cases q with
    | nil =>
      simpa [dispatchLoop, countAvail] using newlyAssigned_refl (w :: ss)
    | cons r q' =>
      cases hw : w.isAvailable with
      | true =>
        have hw' : w.isBusy = false := by
          simpa [WebServer.isAvailable] using hw
        have hbusy : ((WebServer.processRequest w (some r)).1).isAvailable = false := by
          simp [WebServer.processRequest, WebServer.isAvailable, hw']
        have hreq : ((WebServer.processRequest w (some r)).1).currentRequest = some r := by
          simp [WebServer.processRequest, hw']
        rw [dispatchLoop_cons_avail hw, countAvail_cons_avail hw,
          List.length_cons, Nat.succ_min_succ]
        simp only [newlyAssigned, List.zip_cons_cons, List.filterMap_cons,
          hw, hbusy, Bool.not_false, Bool.and_self, if_true, hreq,
          List.take_succ_cons]
        simpa [newlyAssigned] using ih q'
      | false =>
        rw [dispatchLoop_cons_busy hw, countAvail_cons_busy hw]
        simp only [newlyAssigned, List.zip_cons_cons, List.filterMap_cons, hw,
          Bool.false_and, if_false]
        simpa [newlyAssigned] using ih (r :: q')

/-! ## Case-analysis lemmas for the admission and scaling operations -/

/-- `addRequest` either blocks or accepts, and mutates exactly the
corresponding counters (plus the queue on acceptance). -/
theorem addRequest_spec (ranges : List IpRange) (st : LBState) (r : Request) :
    (isBlocked ranges r.ipIn = true
      ∧ addRequest ranges st r = { st with stats := { st.stats with
          generatedRequests := st.stats.generatedRequests + 1,
          blockedRequests := st.stats.blockedRequests + 1 } })
  ∨ (isBlocked ranges r.ipIn = false
      ∧ addRequest ranges st r = { st with
          requestQueue := st.requestQueue ++ [r],
          stats := { st.stats with
            generatedRequests := st.stats.generatedRequests + 1,
            acceptedRequests := st.stats.acceptedRequests + 1 } }) := by
  cases h : isBlocked ranges r.ipIn
  · right; exact ⟨rfl, by simp [addRequest, h]⟩
  · left; exact ⟨rfl, by simp [addRequest, h]⟩

/-- The four mutually exclusive outcomes of `balanceLoad`: cooldown
countdown, scale-up, successful scale-down, or no change. -/
theorem balanceLoad_spec (cfg : Config) (st : LBState) :
    (0 < st.cooldownTimer
      ∧ balanceLoad cfg st = { st with cooldownTimer := st.cooldownTimer - 1 })
  ∨ (¬ 0 < st.cooldownTimer
      ∧ cfg.maxQueuePerServer * (st.servers.length : Int)
          < (st.requestQueue.length : Int)
      ∧ balanceLoad cfg st = { st with
          servers := st.servers
            ++ [WebServer.create (toString (st.servers.length + 1))],
          stats := { st.stats with
            addedServers := st.stats.addedServers + 1 },
          cooldownTimer := cfg.scalingCooldownCycles })
  ∨ (∃ srv, ¬ 0 < st.cooldownTimer
      ∧ ¬ cfg.maxQueuePerServer * (st.servers.length : Int)
            < (st.requestQueue.length : Int)
      ∧ ((st.requestQueue.length : Int)
            < cfg.minQueuePerServer * (st.servers.length : Int)
          ∧ (1 : Int) < (st.servers.length : Int))
      ∧ removeLastAvailable st.servers = some srv
      ∧ balanceLoad cfg st = { st with
          servers := srv,
          stats := { st.stats with
            removedServers := st.stats.removedServers + 1 },
          cooldownTimer := cfg.scalingCooldownCycles })
  ∨ (¬ 0 < st.cooldownTimer
      ∧ ¬ cfg.maxQueuePerServer * (st.servers.length : Int)
            < (st.requestQueue.length : Int)
      ∧ balanceLoad cfg st = st) := by
  by_cases h1 : 0 < st.cooldownTimer
  · refine Or.inl ⟨h1, ?_⟩
    simp only [balanceLoad]
    rw [if_pos h1]
  · by_cases h2 : cfg.maxQueuePerServer * (st.servers.length : Int)
        < (st.requestQueue.length : Int)
    · refine Or.inr (Or.inl ⟨h1, h2, ?_⟩)
      simp only [balanceLoad]
      rw [if_neg h1, if_pos h2]
      simp [addServer]
    · by_cases h3 : (st.requestQueue.length : Int)
          < cfg.minQueuePerServer * (st.servers.length : Int)
          ∧ (1 : Int) < (st.servers.length : Int)
      · cases h4 : removeLastAvailable st.servers with
        | none =>
          refine Or.inr (Or.inr (Or.inr ⟨h1, h2, ?_⟩))
          simp only [balanceLoad]
          rw [if_neg h1, if_neg h2, if_pos h3, h4]
        | some srv =>
          refine Or.inr (Or.inr (Or.inl ⟨srv, h1, h2, h3, rfl, ?_⟩))
          simp only [balanceLoad]
          rw [if_neg h1, if_neg h2, if_pos h3, h4]
      · refine Or.inr (Or.inr (Or.inr ⟨h1, h2, ?_⟩))
        simp only [balanceLoad]
        rw [if_neg h1, if_neg h2, if_neg h3]

/-! ## The admission-counter invariant (claim C2) -/

/-- `generated == accepted + blocked`. -/
def AdmissionInv (st : LBState) : Prop :=
  st.stats.generatedRequests
    = st.stats.acceptedRequests + st.stats.blockedRequests

theorem admissionInv_addRequest (ranges : List IpRange) (st : LBState)
    (r : Request) (h : AdmissionInv st) :
    AdmissionInv (addRequest ranges st r) := by
  unfold AdmissionInv at h ⊢
  rcases addRequest_spec ranges st r with ⟨_, he⟩ | ⟨_, he⟩ <;> rw [he] <;>
    simp <;> omega

theorem admissionInv_addGenerated (R : Rng) (cfg : Config)
    (ranges : List IpRange) (st : LBState) (h : AdmissionInv st) :
    AdmissionInv (addGenerated R cfg ranges st) := by
  unfold addGenerated
  exact admissionInv_addRequest ranges _ _ (by simpa [AdmissionInv, generateRequest] using h)

theorem admissionInv_addGeneratedN (R : Rng) (cfg : Config)
    (ranges : List IpRange) :
    ∀ (n : Nat) (st : LBState), AdmissionInv st
      → AdmissionInv (addGeneratedN R cfg ranges n st)
  | 0, _, h => h
  | n + 1, st, h =>
    admissionInv_addGeneratedN R cfg ranges n _
      (admissionInv_addGenerated R cfg ranges st h)

theorem admissionInv_maybeAdd (R : Rng) (cfg : Config)
    (ranges : List IpRange) (st : LBState) (h : AdmissionInv st) :
    AdmissionInv (maybeAddNewRequests R cfg ranges st) := by
  simp only [maybeAddNewRequests]
  split
  · exact admissionInv_addGeneratedN R cfg ranges _ _ (by simpa [AdmissionInv] using h)
  · simpa [AdmissionInv] using h

theorem admissionInv_processTickLB (st : LBState) (h : AdmissionInv st) :
    AdmissionInv (processTickLB st) := by
  simpa [AdmissionInv, processTickLB] using h

theorem admissionInv_updatePeak (st : LBState) (h : AdmissionInv st) :
    AdmissionInv (updatePeak st) := by
  unfold updatePeak
  split <;> simpa [AdmissionInv] using h

theorem admissionInv_balanceLoad (cfg : Config) (st : LBState)
    (h : AdmissionInv st) : AdmissionInv (balanceLoad cfg st) := by
  rcases balanceLoad_spec cfg st with ⟨_, he⟩ | ⟨_, _, he⟩
    | ⟨srv, _, _, _, _, he⟩ | ⟨_, _, he⟩ <;>
    (rw [he]; simpa [AdmissionInv] using h)

theorem admissionInv_tickOnce (R : Rng) (cfg : Config)
    (ranges : List IpRange) (st : LBState) (h : AdmissionInv st) :
    AdmissionInv (tickOnce R cfg ranges st) :=
  admissionInv_balanceLoad cfg _
    (admissionInv_updatePeak _
      (admissionInv_processTickLB _ (admissionInv_maybeAdd R cfg ranges st h)))

theorem admissionInv_iterateTicks (R : Rng) (cfg : Config)
    (ranges : List IpRange) :
    ∀ (n : Nat) (st : LBState), AdmissionInv st
      → AdmissionInv (iterateTicks R cfg ranges n st)
  | 0, _, h => h
  | n + 1, st, h =>
    admissionInv_iterateTicks R cfg ranges n _
      (admissionInv_tickOnce R cfg ranges st h)

theorem admissionInv_fillLoop (R : Rng) (cfg : Config)
    (ranges : List IpRange) :
    ∀ (fuel : Nat) (target : Int) (st : LBState), AdmissionInv st
      → AdmissionInv (fillLoop R cfg ranges fuel target st)
  | 0, _, _, h => h
  | fuel + 1, target, st, h => by
    unfold fillLoop
    split
    · exact admissionInv_fillLoop R cfg ranges fuel target _
        (admissionInv_addGenerated R cfg ranges st h)
    · exact h

theorem admissionInv_addServers :
    ∀ (n : Nat) (st : LBState), AdmissionInv st
      → AdmissionInv (addServers n st)
  | 0, _, h => h
  | n + 1, st, h =>
    admissionInv_addServers n _ (by simpa [AdmissionInv, addServer] using h)

theorem admissionInv_postFill (R : Rng) (cfg : Config)
    (ranges : List IpRange) (entropy fuel : Nat) :
    AdmissionInv (postFillState R cfg ranges entropy fuel) := by
  unfold postFillState fillInitialQueue
  have h0 : AdmissionInv (initialState R (clampInit cfg) entropy) := by
    simp [AdmissionInv, initialState, SimulationStats.init]
  have h1 := admissionInv_addServers (clampInit cfg).initialServers.toNat _ h0
  have h2 := admissionInv_fillLoop R (clampInit cfg) ranges fuel
    ((clampInit cfg).initialServers * (clampInit cfg).initialQueueMultiplier) _ h1
  simpa [AdmissionInv] using h2

/-- C2: `generatedRequests = acceptedRequests + blockedRequests` always
holds: each `addRequest` call adds one to `generatedRequests` and one to
exactly one of `acceptedRequests`/`blockedRequests`, and the equality holds
at every recorded state of every run (and in the final returned stats). -/
theorem stats_admission_invariant :
    (∀ (ranges : List IpRange) (st : LBState) (r : Request),
        (addRequest ranges st r).stats.generatedRequests
          = st.stats.generatedRequests + 1
      ∧ (((addRequest ranges st r).stats.acceptedRequests
              = st.stats.acceptedRequests + 1
            ∧ (addRequest ranges st r).stats.blockedRequests
              = st.stats.blockedRequests)
        ∨ ((addRequest ranges st r).stats.acceptedRequests
              = st.stats.acceptedRequests
            ∧ (addRequest ranges st r).stats.blockedRequests
              = st.stats.blockedRequests + 1)))
  ∧ (∀ (R : Rng) (cfg : Config) (ranges : List IpRange)
        (entropy fuel n : Nat),
      (lbStates R cfg ranges entropy fuel n).stats.generatedRequests
        = (lbStates R cfg ranges entropy fuel n).stats.acceptedRequests
          + (lbStates R cfg ranges entropy fuel n).stats.blockedRequests)
  ∧ (∀ (R : Rng) (cfg : Config) (ranges : List IpRange)
        (entropy fuel : Nat),
      (runState R cfg ranges entropy fuel).stats.generatedRequests
        = (runState R cfg ranges entropy fuel).stats.acceptedRequests
          + (runState R cfg ranges entropy fuel).stats.blockedRequests) := by
  refine ⟨?_, ?_, ?_⟩
  · intro ranges st r
    rcases addRequest_spec ranges st r with ⟨_, he⟩ | ⟨_, he⟩
    · exact ⟨by simp [he], Or.inr (by simp [he])⟩
    · exact ⟨by simp [he], Or.inl (by simp [he])⟩
  · intro R cfg ranges entropy fuel n
    exact admissionInv_iterateTicks R (clampInit cfg) ranges n _
      (admissionInv_postFill R cfg ranges entropy fuel)
  · intro R cfg ranges entropy fuel
    have h := admissionInv_iterateTicks R (clampInit cfg) ranges
      (clampInit cfg).simulationCycles.toNat _
      (admissionInv_postFill R cfg ranges entropy fuel)
    simpa [AdmissionInv, runState, finishStats] using h

/-- C1: for every tick's dispatch phase, iterating workers in stable pool
order and assigning the front queue element to each idle worker (stopping
when the queue empties) leaves the queue equal to the original queue with
its first `min(idleWorkers, queueSize)` elements removed — so its size is
`max 0 (sizeBefore - idleWorkersAtStart)` — and the requests handed out
are exactly the first elements of the queue, in arrival order, the `i`-th
idle worker in pool order receiving the `i`-th front element (FIFO
preserved). -/
theorem dispatch_queue_fifo (servers : List WebServer) (q : List Request) :
    (dispatchLoop servers q).2 = q.drop (min (countAvail servers) q.length)
    ∧ ((dispatchLoop servers q).2.length : Int)
        = max 0 ((q.length : Int) - (countAvail servers : Int))
    ∧ newlyAssigned servers (dispatchLoop servers q).1
        = q.take (min (countAvail servers) q.length) := by
  refine ⟨dispatchLoop_queue_eq servers q, ?_, dispatchLoop_assigned_eq servers q⟩
  rw [dispatchLoop_queue_eq servers q]
  rw [List.length_drop]
  omega

/-! ## Frame lemmas: which fields each phase leaves untouched -/

theorem iterateTicks_succ (R : Rng) (cfg : Config) (ranges : List IpRange) :
    ∀ (n : Nat) (st : LBState),
      iterateTicks R cfg ranges (n + 1) st
        = tickOnce R cfg ranges (iterateTicks R cfg ranges n st)
  | 0, _ => rfl
  | n + 1, st => by
    show iterateTicks R cfg ranges (n + 1) (tickOnce R cfg ranges st) = _
    rw [iterateTicks_succ R cfg ranges n (tickOnce R cfg ranges st)]
    rfl

theorem lbStates_succ (R : Rng) (cfg : Config) (ranges : List IpRange)
    (entropy fuel n : Nat) :
    lbStates R cfg ranges entropy fuel (n + 1)
      = tickOnce R (clampInit cfg) ranges (lbStates R cfg ranges entropy fuel n) :=
  iterateTicks_succ R (clampInit cfg) ranges n _

theorem addRequest_frame (ranges : List IpRange) (st : LBState) (r : Request) :
    (addRequest ranges st r).servers = st.servers
    ∧ (addRequest ranges st r).cooldownTimer = st.cooldownTimer
    ∧ (addRequest ranges st r).stats.peakQueueSize = st.stats.peakQueueSize
    ∧ scaleEvents (addRequest ranges st r) = scaleEvents st := by
  rcases addRequest_spec ranges st r with ⟨_, he⟩ | ⟨_, he⟩ <;> rw [he] <;>
    exact ⟨rfl, rfl, rfl, rfl⟩

theorem addGenerated_frame (R : Rng) (cfg : Config) (ranges : List IpRange)
    (st : LBState) :
    (addGenerated R cfg ranges st).servers = st.servers
    ∧ (addGenerated R cfg ranges st).cooldownTimer = st.cooldownTimer
    ∧ (addGenerated R cfg ranges st).stats.peakQueueSize = st.stats.peakQueueSize
    ∧ scaleEvents (addGenerated R cfg ranges st) = scaleEvents st := by
  unfold addGenerated
  exact addRequest_frame ranges _ _

theorem addGeneratedN_frame (R : Rng) (cfg : Config) (ranges : List IpRange) :
    ∀ (n : Nat) (st : LBState),
      (addGeneratedN R cfg ranges n st).servers = st.servers
      ∧ (addGeneratedN R cfg ranges n st).cooldownTimer = st.cooldownTimer
      ∧ (addGeneratedN R cfg ranges n st).stats.peakQueueSize
          = st.stats.peakQueueSize
      ∧ scaleEvents (addGeneratedN R cfg ranges n st) = scaleEvents st
  | 0, st => ⟨rfl, rfl, rfl, rfl⟩
  | n + 1, st => by
    obtain ⟨a1, a2, a3, a4⟩ := addGenerated_frame R cfg ranges st
    obtain ⟨b1, b2, b3, b4⟩ :=
      addGeneratedN_frame R cfg ranges n (addGenerated R cfg ranges st)
    exact ⟨b1.trans a1, b2.trans a2, b3.trans a3, b4.trans a4⟩

theorem maybeAdd_frame (R : Rng) (cfg : Config) (ranges : List IpRange)
    (st : LBState) :
    (maybeAddNewRequests R cfg ranges st).servers = st.servers
    ∧ (maybeAddNewRequests R cfg ranges st).cooldownTimer = st.cooldownTimer
    ∧ (maybeAddNewRequests R cfg ranges st).stats.peakQueueSize
        = st.stats.peakQueueSize
    ∧ scaleEvents (maybeAddNewRequests R cfg ranges st) = scaleEvents st := by
  simp only [maybeAddNewRequests]
  split
  · exact addGeneratedN_frame R cfg ranges _ _
  · exact ⟨rfl, rfl, rfl, rfl⟩

theorem dispatchLoop_servers_length (servers : List WebServer) :
    ∀ q : List Request, (dispatchLoop servers q).1.length = servers.length := by
  induction servers with
  | nil => intro q; simp [dispatchLoop]
  | cons w ss ih =>
    intro q
    cases q with
    | nil => simp [dispatchLoop]
    | cons r q' =>
      cases hw : w.isAvailable with
      | true => rw [dispatchLoop_cons_avail hw]; simpa using ih q'
      | false => rw [dispatchLoop_cons_busy hw]; simpa using ih (r :: q')

theorem tickServers_length :
    ∀ servers : List WebServer, (tickServers servers).1.length = servers.length
  | [] => rfl
  | s :: ss => by simpa [tickServers] using tickServers_length ss

theorem processTickLB_frame (st : LBState) :
    (processTickLB st).servers.length = st.servers.length
    ∧ (processTickLB st).cooldownTimer = st.cooldownTimer
    ∧ (processTickLB st).stats.peakQueueSize = st.stats.peakQueueSize
    ∧ scaleEvents (processTickLB st) = scaleEvents st := by
  refine ⟨?_, rfl, rfl, rfl⟩
  simp only [processTickLB]
  rw [tickServers_length, dispatchLoop_servers_length]

theorem updatePeak_frame (st : LBState) :
    (updatePeak st).servers = st.servers
    ∧ (updatePeak st).requestQueue = st.requestQueue
    ∧ (updatePeak st).cooldownTimer = st.cooldownTimer
    ∧ scaleEvents (updatePeak st) = scaleEvents st := by
  unfold updatePeak
  split <;> exact ⟨rfl, rfl, rfl, rfl⟩

theorem balanceLoad_frame (cfg : Config) (st : LBState) :
    (balanceLoad cfg st).requestQueue = st.requestQueue
    ∧ (balanceLoad cfg st).stats.peakQueueSize = st.stats.peakQueueSize := by
  rcases balanceLoad_spec cfg st with ⟨_, he⟩ | ⟨_, _, he⟩
    | ⟨srv, _, _, _, _, he⟩ | ⟨_, _, he⟩ <;> rw [he] <;> exact ⟨rfl, rfl⟩

/-! ## removeServer lemmas (claim C5) -/

theorem removeLastAvailable_none_all_busy :
    ∀ l : List WebServer, removeLastAvailable l = none →
      ∀ s ∈ l, s.isAvailable = false
  | [], _, s, hs => by simp at hs
  | w :: ss, h, x, hx => by
    cases hrec : removeLastAvailable ss with
    | some ss2 => simp [removeLastAvailable, hrec] at h
    | none =>
      simp only [removeLastAvailable, hrec] at h
      by_cases hw : w.isAvailable
      · rw [if_pos hw] at h; exact Option.noConfusion h
      · rcases List.mem_cons.mp hx with rfl | hmem
        · simpa using hw
        · exact removeLastAvailable_none_all_busy ss hrec x hmem

theorem all_busy_removeLastAvailable_none :
    ∀ l : List WebServer, (∀ s ∈ l, s.isAvailable = false) →
      removeLastAvailable l = none
  | [], _ => rfl
  | w :: ss, h => by
    have hrec := all_busy_removeLastAvailable_none ss
      (fun s hs => h s (List.mem_cons_of_mem w hs))
    have hw : w.isAvailable = false := h w (List.mem_cons_self w ss)
    simp [removeLastAvailable, hrec, hw]

theorem removeLastAvailable_spec :
    ∀ (l l2 : List WebServer), removeLastAvailable l = some l2 →
      ∃ i, ∃ h : i < l.length, (l.get ⟨i, h⟩).isAvailable = true
        ∧ l2 = l.eraseIdx i
        ∧ ∀ j (hj : j < l.length), i < j → (l.get ⟨j, hj⟩).isAvailable = false
  | [], _, h => by simp [removeLastAvailable] at h
  | w :: ss, l2, h => by
    cases hrec : removeLastAvailable ss with
    | some ss2 =>
      simp only [removeLastAvailable, hrec] at h
      injection h with h
      subst h
      obtain ⟨i, hi, hav, herase, hafter⟩ := removeLastAvailable_spec ss ss2 hrec
      refine ⟨i + 1, by simpa using Nat.succ_lt_succ hi, ?_, ?_, ?_⟩
      · simpa [List.get_cons_succ] using hav
      · simpa [List.eraseIdx] using herase
      · intro j hj hij
        cases j with
        | zero => omega
        | succ j' =>
          have hj' : j' < ss.length := by simpa using hj
          simpa [List.get_cons_succ] using hafter j' hj' (by omega)
    | none =>
      simp only [removeLastAvailable, hrec] at h
      by_cases hw : w.isAvailable
      · rw [if_pos hw] at h
        injection h with h
        subst h
        refine ⟨0, by simp, by simpa using hw, by simp [List.eraseIdx], ?_⟩
        intro j hj h0j
        cases j with
        | zero => omega
        | succ j' =>
          have hj' : j' < ss.length := by simpa using hj
          have hall := removeLastAvailable_none_all_busy ss hrec
          simpa [List.get_cons_succ] using hall (ss.get ⟨j', hj'⟩) (List.get_mem ss j' hj')
      · rw [if_neg hw] at h; exact Option.noConfusion h

theorem removeLastAvailable_length {l l2 : List WebServer}
    (h : removeLastAvailable l = some l2) : l2.length + 1 = l.length := by
  obtain ⟨i, hi, _, herase, _⟩ := removeLastAvailable_spec l l2 h
  rw [herase]
  exact List.length_eraseIdx_add_one hi

theorem balanceLoad_pool_lower (cfg : Config) (st : LBState)
    (h : 1 ≤ st.servers.length) : 1 ≤ (balanceLoad cfg st).servers.length := by
  rcases balanceLoad_spec cfg st with ⟨_, he⟩ | ⟨_, _, he⟩
    | ⟨srv, _, _, ⟨_, hgt⟩, hrem, he⟩ | ⟨_, _, he⟩ <;> rw [he]
  · exact h
  · simp
  · have h2 : 1 < st.servers.length := by exact_mod_cast hgt
    have := removeLastAvailable_length hrem
    simp only
    omega
  · exact h

theorem addServers_length :
    ∀ (n : Nat) (st : LBState),
      (addServers n st).servers.length = st.servers.length + n
  | 0, st => rfl
  | n + 1, st => by
    have hadd : (addServer st).servers.length = st.servers.length + 1 := by
      simp [addServer]
    rw [show addServers (n + 1) st = addServers n (addServer st) from rfl,
      addServers_length n (addServer st), hadd]
    omega

theorem fillLoop_servers (R : Rng) (cfg : Config) (ranges : List IpRange) :
    ∀ (fuel : Nat) (target : Int) (st : LBState),
      (fillLoop R cfg ranges fuel target st).servers = st.servers
  | 0, _, _ => rfl
  | fuel + 1, target, st => by
    unfold fillLoop
    split
    · exact (fillLoop_servers R cfg ranges fuel target _).trans
        (addGenerated_frame R cfg ranges st).1
    · rfl

theorem postFill_servers_length (R : Rng) (cfg : Config)
    (ranges : List IpRange) (entropy fuel : Nat) :
    1 ≤ (postFillState R cfg ranges entropy fuel).servers.length := by
  unfold postFillState fillInitialQueue
  have h1 : 1 ≤ ((clampInit cfg).initialServers).toNat := by
    unfold clampInit
    split
    · simp
    · rename_i hcl
      omega
  simp only [fillLoop_servers, addServers_length, initialState]
  simpa using h1

theorem tickOnce_pool_lower (R : Rng) (cfg : Config) (ranges : List IpRange)
    (st : LBState) (h : 1 ≤ st.servers.length) :
    1 ≤ (tickOnce R cfg ranges st).servers.length := by
  unfold tickOnce
  apply balanceLoad_pool_lower
  rw [(updatePeak_frame _).1, (processTickLB_frame _).1, (maybeAdd_frame R cfg ranges st).1]
  exact h

theorem pool_lower_lbStates (R : Rng) (cfg : Config) (ranges : List IpRange)
    (entropy fuel : Nat) :
    ∀ n : Nat, 1 ≤ (lbStates R cfg ranges entropy fuel n).servers.length := by
  intro n
  induction n with
  | zero => exact postFill_servers_length R cfg ranges entropy fuel
  | succ n ih =>
    rw [lbStates_succ]
    exact tickOnce_pool_lower R (clampInit cfg) ranges _ ih

/-! ## Concrete objects used to witness the claims -/

/-- A concrete instance of the abstract generator: every draw returns the
lower bound and advances the state by one. -/
def RLin : Rng :=
  { seedInit := fun n => n,
    drawNat := fun lo _ g => (lo, g + 1),
    drawInt := fun lo _ g => (lo, g + 1) }

def rDemo : Request :=
  { id := 1, ipIn := "10.0.0.1", ipOut := "10.0.0.2", timeRequired := 3,
    jobType := 'P' }

def wIdle : WebServer := WebServer.create "1"

def wBusyShort : WebServer :=
  { serverId := "2", isBusy := true, remainingTime := 1,
    currentRequest := some rDemo, completedRequests := 4 }

def wBusyLong : WebServer :=
  { serverId := "3", isBusy := true, remainingTime := 5,
    currentRequest := some rDemo, completedRequests := 0 }

/-! ## Claim C6: the worker operation contract -/

/-- C6: `processRequest` returns `false` without mutation on a missing
request or a busy worker, and otherwise stores a copy of the request, sets
the countdown to the request's cost, and becomes busy; `processTick` is a
no-op returning `false` when idle and otherwise decrements the countdown,
and exactly when it reaches `≤ 0` clears the slot, increments
`completedRequests` by exactly one, returns to idle and reports `true`. -/
theorem worker_contract :
    (∀ w : WebServer, WebServer.processRequest w none = (w, false))
  ∧ (∀ (w : WebServer) (r : Request), w.isBusy = true →
      WebServer.processRequest w (some r) = (w, false))
  ∧ (∀ (w : WebServer) (r : Request), w.isBusy = false →
      WebServer.processRequest w (some r)
        = ({ w with
             currentRequest := some r, remainingTime := r.timeRequired,
             isBusy := true }, true))
  ∧ (∀ w : WebServer, w.isBusy = false → WebServer.processTick w = (w, false))
  ∧ (∀ w : WebServer, w.isBusy = true → w.remainingTime - 1 ≤ 0 →
      WebServer.processTick w
        = ({ w with
             remainingTime := w.remainingTime - 1, currentRequest := none,
             isBusy := false,
             completedRequests := w.completedRequests + 1 }, true))
  ∧ (∀ w : WebServer, w.isBusy = true → ¬ w.remainingTime - 1 ≤ 0 →
      WebServer.processTick w
        = ({ w with remainingTime := w.remainingTime - 1 }, false)) := by
  refine ⟨fun w => rfl, ?_, ?_, ?_, ?_, ?_⟩
  · intro w r h; simp [WebServer.processRequest, h]
  · intro w r h; simp [WebServer.processRequest, h]
  · intro w h; simp [WebServer.processTick, h]
  · intro w h h2; simp [WebServer.processTick, h, h2]
  · intro w h h2; simp [WebServer.processTick, h, h2]

theorem worker_contract_witness :
    WebServer.processRequest wBusyShort (some rDemo) = (wBusyShort, false)
  ∧ WebServer.processRequest wIdle (some rDemo)
      = ({ wIdle with
           currentRequest := some rDemo, remainingTime := rDemo.timeRequired,
           isBusy := true }, true)
  ∧ WebServer.processTick wIdle = (wIdle, false)
  ∧ WebServer.processTick wBusyShort
      = ({ wBusyShort with
           remainingTime := wBusyShort.remainingTime - 1,
           currentRequest := none, isBusy := false,
           completedRequests := wBusyShort.completedRequests + 1 }, true)
  ∧ WebServer.processTick wBusyLong
      = ({ wBusyLong with remainingTime := wBusyLong.remainingTime - 1 }, false) :=
  ⟨worker_contract.2.1 wBusyShort rDemo rfl,
   worker_contract.2.2.1 wIdle rDemo rfl,
   worker_contract.2.2.2.1 wIdle rfl,
   worker_contract.2.2.2.2.1 wBusyShort rfl (by decide),
   worker_contract.2.2.2.2.2 wBusyLong rfl (by decide)⟩

/-! ## Claim C5: scale-down safety -/

/-- C5: `balanceLoad` never brings the pool below one server (and every
reachable run state keeps at least one); a successful removal erases
exactly the last idle worker in pool order (every later worker is busy,
and the removed one was idle, so a busy worker is never removed); and when
every worker is busy, the scale-down path changes nothing at all — in
particular no cooldown is consumed. -/
theorem scaledown_safety :
    (∀ (cfg : Config) (st : LBState), 1 ≤ st.servers.length →
        1 ≤ (balanceLoad cfg st).servers.length)
  ∧ (∀ (R : Rng) (cfg : Config) (ranges : List IpRange)
        (entropy fuel n : Nat),
        1 ≤ (lbStates R cfg ranges entropy fuel n).servers.length)
  ∧ (∀ l l2 : List WebServer, removeLastAvailable l = some l2 →
        ∃ i, ∃ h : i < l.length, (l.get ⟨i, h⟩).isAvailable = true
          ∧ l2 = l.eraseIdx i
          ∧ ∀ j (hj : j < l.length), i < j → (l.get ⟨j, hj⟩).isAvailable = false)
  ∧ (∀ (cfg : Config) (st : LBState), st.cooldownTimer ≤ 0 →
        ¬ cfg.maxQueuePerServer * (st.servers.length : Int)
            < (st.requestQueue.length : Int) →
        (∀ s ∈ st.servers, s.isAvailable = false) →
        balanceLoad cfg st = st) := by
  refine ⟨balanceLoad_pool_lower, pool_lower_lbStates, removeLastAvailable_spec, ?_⟩
  intro cfg st hcool hupper hall
  rcases balanceLoad_spec cfg st with ⟨hc, _⟩ | ⟨_, h2, _⟩
    | ⟨srv, _, _, _, hrem, _⟩ | ⟨_, _, he⟩
  · omega
  · exact absurd h2 hupper
  · rw [all_busy_removeLastAvailable_none st.servers hall] at hrem
    exact Option.noConfusion hrem
  · exact he

def cfg5 : Config :=
  { initialServers := 2, simulationCycles := 0, initialQueueMultiplier := 0,
    minQueuePerServer := 3, maxQueuePerServer := 5, scalingCooldownCycles := 2,
    minRequestTime := 1, maxRequestTime := 1, arrivalProbabilityPercent := 0,
    maxNewRequestsPerCycle := 1, statusPrintInterval := 0, seed := 1 }

/-- A state whose two workers are both busy, with a short queue: the
scale-down branch is taken but finds no idle worker. -/
def stBusy : LBState :=
  { servers := [wBusyShort, wBusyLong], requestQueue := [rDemo],
    cooldownTimer := 0, nextRequestId := 2, gen := 0,
    stats := SimulationStats.init, trace := [rDemo] }

theorem scaledown_safety_witness :
    1 ≤ (balanceLoad cfg5 stBusy).servers.length
  ∧ balanceLoad cfg5 stBusy = stBusy
  ∧ ∃ i, ∃ h : i < [wBusyShort, wIdle].length,
      (([wBusyShort, wIdle].get ⟨i, h⟩).isAvailable = true
        ∧ [wBusyShort] = [wBusyShort, wIdle].eraseIdx i
        ∧ ∀ j (hj : j < [wBusyShort, wIdle].length), i < j →
            (([wBusyShort, wIdle].get ⟨j, hj⟩).isAvailable = false)) :=
  ⟨scaledown_safety.1 cfg5 stBusy (by decide),
   scaledown_safety.2.2.2 cfg5 stBusy (by decide) (by decide) (by decide),
   scaledown_safety.2.2.1 [wBusyShort, wIdle] [wBusyShort] (by decide)⟩

/-! ## Claim C10: one scaling event per tick, scale-up precedence -/

/-- C10: a single `balanceLoad` call records at most one scaling event and
never both an addition and a removal; and whenever the queue exceeds the
upper threshold (cooldown expired), exactly one worker is added — with no
hypothesis on the lower threshold, so scale-up takes precedence even in
configurations where the queue is simultaneously below the lower
threshold (`minQueuePerServer > maxQueuePerServer`). -/
theorem balance_single_event_precedence :
    (∀ (cfg : Config) (st : LBState),
        ¬(st.stats.addedServers < (balanceLoad cfg st).stats.addedServers
          ∧ st.stats.removedServers < (balanceLoad cfg st).stats.removedServers))
  ∧ (∀ (cfg : Config) (st : LBState),
        scaleEvents (balanceLoad cfg st) ≤ scaleEvents st + 1)
  ∧ (∀ (cfg : Config) (st : LBState),
        st.cooldownTimer ≤ 0 →
        cfg.maxQueuePerServer * (st.servers.length : Int)
          < (st.requestQueue.length : Int) →
        (balanceLoad cfg st).servers.length = st.servers.length + 1
        ∧ (balanceLoad cfg st).stats.addedServers = st.stats.addedServers + 1
        ∧ (balanceLoad cfg st).stats.removedServers = st.stats.removedServers) := by
  refine ⟨?_, ?_, ?_⟩
  · intro cfg st
    rcases balanceLoad_spec cfg st with ⟨_, he⟩ | ⟨_, _, he⟩
      | ⟨srv, _, _, _, _, he⟩ | ⟨_, _, he⟩ <;> rw [he] <;> simp
  · intro cfg st
    rcases balanceLoad_spec cfg st with ⟨_, he⟩ | ⟨_, _, he⟩
      | ⟨srv, _, _, _, _, he⟩ | ⟨_, _, he⟩ <;> rw [he] <;>
      simp [scaleEvents] <;> omega
  · intro cfg st h1 h2
    rcases balanceLoad_spec cfg st with ⟨hc, _⟩ | ⟨_, _, he⟩
      | ⟨srv, _, hno, _, _, _⟩ | ⟨_, hno, _⟩
    · omega
    · rw [he]; exact ⟨by simp, by simp, by simp⟩
    · exact absurd h2 hno
    · exact absurd h2 hno

def cfgX : Config :=
  { initialServers := 1, simulationCycles := 0, initialQueueMultiplier := 0,
    minQueuePerServer := 5, maxQueuePerServer := 0, scalingCooldownCycles := 2,
    minRequestTime := 1, maxRequestTime := 1, arrivalProbabilityPercent := 0,
    maxNewRequestsPerCycle := 1, statusPrintInterval := 0, seed := 1 }

/-- One idle worker and one queued request under `cfgX`: the queue size 1
is above the upper threshold `0` and below the lower threshold `5` at the
same time. -/
def stX : LBState :=
  { servers := [wIdle], requestQueue := [rDemo], cooldownTimer := 0,
    nextRequestId := 2, gen := 0, stats := SimulationStats.init,
    trace := [rDemo] }

theorem balance_single_event_precedence_witness :
    ((stX.requestQueue.length : Int)
        < cfgX.minQueuePerServer * (stX.servers.length : Int))
  ∧ (balanceLoad cfgX stX).servers.length = stX.servers.length + 1
  ∧ (balanceLoad cfgX stX).stats.addedServers = stX.stats.addedServers + 1
  ∧ (balanceLoad cfgX stX).stats.removedServers = stX.stats.removedServers :=
  ⟨by decide, balance_single_event_precedence.2.2 cfgX stX (by decide) (by decide)⟩

/-! ## Claim C4: the cooldown separates scaling events -/

theorem clampInit_scaling (cfg : Config) :
    (clampInit cfg).scalingCooldownCycles = cfg.scalingCooldownCycles := by
  unfold clampInit
  split <;> rfl

/-- A tick entered with a positive cooldown: the scaling phase only
decrements the timer, and the tick records no scaling event. -/
theorem tickOnce_cooldown_pos (R : Rng) (cfg : Config) (ranges : List IpRange)
    (st : LBState) (h : 0 < st.cooldownTimer) :
    scaleEvents (tickOnce R cfg ranges st) = scaleEvents st
    ∧ (tickOnce R cfg ranges st).cooldownTimer = st.cooldownTimer - 1 := by
  have hmidc : (updatePeak (processTickLB (maybeAddNewRequests R cfg ranges st))).cooldownTimer
      = st.cooldownTimer := by
    rw [(updatePeak_frame _).2.2.1, (processTickLB_frame _).2.1,
      (maybeAdd_frame R cfg ranges st).2.1]
  have hmide : scaleEvents (updatePeak (processTickLB (maybeAddNewRequests R cfg ranges st)))
      = scaleEvents st := by
    rw [(updatePeak_frame _).2.2.2, (processTickLB_frame _).2.2.2,
      (maybeAdd_frame R cfg ranges st).2.2.2]
  unfold tickOnce
  rcases balanceLoad_spec cfg
      (updatePeak (processTickLB (maybeAddNewRequests R cfg ranges st))) with
    ⟨hc, he⟩ | ⟨hc, _, _⟩ | ⟨srv, hc, _, _, _, _⟩ | ⟨hc, _, _⟩
  · rw [he]
    refine ⟨by simpa [scaleEvents] using hmide, ?_⟩
    show (updatePeak (processTickLB (maybeAddNewRequests R cfg ranges st))).cooldownTimer - 1
        = st.cooldownTimer - 1
    rw [hmidc]
  · exact absurd (by rw [hmidc]; exact h) hc
  · exact absurd (by rw [hmidc]; exact h) hc
  · exact absurd (by rw [hmidc]; exact h) hc

/-- A tick that records a scaling event entered the scaling phase with the
cooldown expired, and leaves it reset to `scalingCooldownCycles`. -/
theorem tickOnce_event (R : Rng) (cfg : Config) (ranges : List IpRange)
    (st : LBState)
    (h : scaleEvents (tickOnce R cfg ranges st) ≠ scaleEvents st) :
    st.cooldownTimer ≤ 0
    ∧ (tickOnce R cfg ranges st).cooldownTimer = cfg.scalingCooldownCycles := by
  have hmidc : (updatePeak (processTickLB (maybeAddNewRequests R cfg ranges st))).cooldownTimer
      = st.cooldownTimer := by
    rw [(updatePeak_frame _).2.2.1, (processTickLB_frame _).2.1,
      (maybeAdd_frame R cfg ranges st).2.1]
  have hmide : scaleEvents (updatePeak (processTickLB (maybeAddNewRequests R cfg ranges st)))
      = scaleEvents st := by
    rw [(updatePeak_frame _).2.2.2, (processTickLB_frame _).2.2.2,
      (maybeAdd_frame R cfg ranges st).2.2.2]
  unfold tickOnce at h ⊢
  rcases balanceLoad_spec cfg
      (updatePeak (processTickLB (maybeAddNewRequests R cfg ranges st))) with
    ⟨hc, he⟩ | ⟨hc, _, he⟩ | ⟨srv, hc, _, _, _, he⟩ | ⟨hc, _, he⟩
  · rw [he] at h
    exact absurd (by simpa [scaleEvents] using hmide) h
  · rw [he]
    exact ⟨by rw [← hmidc]; omega, rfl⟩
  · rw [he]
    exact ⟨by rw [← hmidc]; omega, rfl⟩
  · rw [he] at h
    exact absurd (by simpa [scaleEvents] using hmide) h

/-- After a scaling event during cycle `i + 1`, the cooldown counts down:
`k` cycles later it reads `scalingCooldownCycles - k`. -/
theorem cooldown_after_event (R : Rng) (cfg : Config) (ranges : List IpRange)
    (entropy fuel i : Nat) (hev : eventAt R cfg ranges entropy fuel i) :
    ∀ k : Nat, k ≤ cfg.scalingCooldownCycles.toNat →
      (lbStates R cfg ranges entropy fuel (i + 1 + k)).cooldownTimer
        = cfg.scalingCooldownCycles - k := by
  intro k
  induction k with
  | zero =>
    intro _
    have hev' : scaleEvents (tickOnce R (clampInit cfg) ranges
          (lbStates R cfg ranges entropy fuel i))
        ≠ scaleEvents (lbStates R cfg ranges entropy fuel i) := by
      rw [← lbStates_succ]
      exact hev
    have := (tickOnce_event R (clampInit cfg) ranges _ hev').2
    rw [← lbStates_succ, clampInit_scaling] at this
    simpa using this
  | succ k ih =>
    intro hk
    have hcd := ih (by omega)
    have hpos : 0 < (lbStates R cfg ranges entropy fuel (i + 1 + k)).cooldownTimer := by
      rw [hcd]; omega
    have hstep := tickOnce_cooldown_pos R (clampInit cfg) ranges _ hpos
    rw [show i + 1 + (k + 1) = (i + 1 + k) + 1 by omega, lbStates_succ,
      hstep.2, hcd]
    push_cast
    ring

/-- No scaling event can occur in the `scalingCooldownCycles` cycles
following a scaling event. -/
theorem no_event_in_window (R : Rng) (cfg : Config) (ranges : List IpRange)
    (entropy fuel i : Nat) (hev : eventAt R cfg ranges entropy fuel i) :
    ∀ k : Nat, k + 1 ≤ cfg.scalingCooldownCycles.toNat →
      ¬ eventAt R cfg ranges entropy fuel (i + 1 + k) := by
  intro k hk hev2
  have hcd := cooldown_after_event R cfg ranges entropy fuel i hev k (by omega)
  have hpos : 0 < (lbStates R cfg ranges entropy fuel (i + 1 + k)).cooldownTimer := by
    rw [hcd]; omega
  have hstep := tickOnce_cooldown_pos R (clampInit cfg) ranges _ hpos
  apply hev2
  rw [lbStates_succ]
  exact hstep.1

/-- C4: a tick whose scaling phase starts with `cooldownTimer > 0` only
decrements the timer and records no scaling event; consequently any two
scaling events of a run are separated by more than
`scalingCooldownCycles` ticks. -/
theorem cooldown_separates_scaling (R : Rng) (cfg : Config)
    (ranges : List IpRange) (entropy fuel : Nat) :
    (∀ (cfg2 : Config) (st : LBState), 0 < st.cooldownTimer →
        balanceLoad cfg2 st = { st with cooldownTimer := st.cooldownTimer - 1 })
  ∧ (∀ n : Nat, 0 < (lbStates R cfg ranges entropy fuel n).cooldownTimer →
        ¬ eventAt R cfg ranges entropy fuel n
        ∧ (lbStates R cfg ranges entropy fuel (n + 1)).cooldownTimer
            = (lbStates R cfg ranges entropy fuel n).cooldownTimer - 1)
  ∧ (∀ i j : Nat, eventAt R cfg ranges entropy fuel i →
        eventAt R cfg ranges entropy fuel j → i < j →
        cfg.scalingCooldownCycles < (j : Int) - (i : Int)) := by
  refine ⟨?_, ?_, ?_⟩
  · intro cfg2 st h
    rcases balanceLoad_spec cfg2 st with ⟨_, he⟩ | ⟨hc, _, _⟩
      | ⟨srv, hc, _, _, _, _⟩ | ⟨hc, _, _⟩
    · exact he
    · omega
    · omega
    · omega
  · intro n hpos
    have hstep := tickOnce_cooldown_pos R (clampInit cfg) ranges _ hpos
    constructor
    · intro hev
      exact hev (by rw [lbStates_succ]; exact hstep.1)
    · rw [lbStates_succ]
      exact hstep.2
  · intro i j hi hj hij
    by_cases hC : 0 < cfg.scalingCooldownCycles
    · by_contra hle
      push_neg at hle
      obtain ⟨k, rfl, hk2⟩ : ∃ k, j = i + 1 + k
          ∧ k + 1 ≤ cfg.scalingCooldownCycles.toNat := by
        refine ⟨j - i - 1, by omega, by omega⟩
      exact no_event_in_window R cfg ranges entropy fuel i hi k hk2 hj
    · omega

/-- A configuration whose requests take 10 cycles, so dispatched workers
stay busy, the queue backs up, and scale-ups fire every time the cooldown
(1 cycle) allows. -/
def cfgW : Config :=
  { initialServers := 1, simulationCycles := 6, initialQueueMultiplier := 0,
    minQueuePerServer := 0, maxQueuePerServer := 0, scalingCooldownCycles := 1,
    minRequestTime := 10, maxRequestTime := 10,
    arrivalProbabilityPercent := 100, maxNewRequestsPerCycle := 1,
    statusPrintInterval := 0, seed := 1 }

theorem cooldown_separates_scaling_witness :
    eventAt RLin cfgW [] 0 0 1 ∧ eventAt RLin cfgW [] 0 0 3
  ∧ cfgW.scalingCooldownCycles < (3 : Int) - (1 : Int) :=
  ⟨by decide, by decide,
   (cooldown_separates_scaling RLin cfgW [] 0 0).2.2 1 3 (by decide)
     (by decide) (by decide)⟩

/-! ## Claim C7: the fail-closed contract of the admission filter -/

/-- Whether a character list ends in `'.'`. -/
def endsDot : List Char → Bool
  | [] => false
  | c :: cs => if cs = [] then decide (c = '.') else endsDot cs

/-- The `getline` tokenizer differs from the plain split in exactly one
way: an input ending in the delimiter produces no final empty token. -/
theorem splitAllGo_eq_gtokensGo :
    ∀ (cs cur : List Char),
      splitAllGo cs cur
        = gtokensGo cs cur ++ (if endsDot cs then [[]] else [])
  | [], cur => by simp [splitAllGo, gtokensGo, endsDot]
  | c :: cs, cur => by
    cases cs with
    | nil =>
      by_cases hc : c = '.'
      · simp [splitAllGo, gtokensGo, endsDot, hc]
      · simp [splitAllGo, gtokensGo, endsDot, hc]
    | cons c2 cs2 =>
      have e1 : splitAllGo (c :: (c2 :: cs2)) cur
          = if c = '.' then cur.reverse :: splitAllGo (c2 :: cs2) []
            else splitAllGo (c2 :: cs2) (c :: cur) := rfl
      have e2 : gtokensGo (c :: (c2 :: cs2)) cur
          = if c = '.' then cur.reverse :: gtokensGo (c2 :: cs2) []
            else gtokensGo (c2 :: cs2) (c :: cur) := rfl
      have e3 : endsDot (c :: (c2 :: cs2)) = endsDot (c2 :: cs2) := by
        simp [endsDot]
      rw [e1, e2, e3, splitAllGo_eq_gtokensGo (c2 :: cs2) [],
        splitAllGo_eq_gtokensGo (c2 :: cs2) (c :: cur)]
      by_cases hc : c = '.'
      · rw [if_pos hc, if_pos hc]
        simp
      · rw [if_neg hc, if_neg hc]

theorem parseOctet_some_octetOk :
    ∀ {t : List Char} {v : Nat}, parseOctet t = some v → octetOk t = true := by
  intro t v h
  unfold parseOctet at h
  split at h
  · exact Option.noConfusion h
  · split at h
    · exact Option.noConfusion h
    · split at h
      · exact Option.noConfusion h
      · rename_i h1 h2 h3
        simp at h1 h2 h3
        simp [octetOk, h1, h3]
        exact h2

theorem parseOctets_some :
    ∀ (ts : List (List Char)) (vs : List Nat), parseOctets ts = some vs →
      ts.length = vs.length ∧ ∀ t ∈ ts, octetOk t = true
  | [], vs, h => by
    have h2 : ([] : List Nat) = vs := by
      have h3 := h
      simp [parseOctets] at h3
      exact h3.symm
    subst h2
    exact ⟨rfl, by simp⟩
  | t :: ts, vs, h => by
    unfold parseOctets at h
    cases ho : parseOctet t with
    | none => rw [ho] at h; exact Option.noConfusion h
    | some v =>
      cases hos : parseOctets ts with
      | none => rw [ho, hos] at h; exact Option.noConfusion h
      | some vs2 =>
        rw [ho, hos] at h
        injection h with h
        obtain ⟨hlen, hall⟩ := parseOctets_some ts vs2 hos
        subst h
        refine ⟨by simp [hlen], ?_⟩
        intro x hx
        rcases List.mem_cons.mp hx with rfl | hmem
        · exact parseOctet_some_octetOk ho
        · exact hall x hmem

/-- A parse success means the address splits into four valid octets,
possibly followed by one trailing dot. -/
theorem parseIp_some_wellformedTD (s : String) (v : Nat)
    (hp : parseIp s = some v) : isWellFormedIPv4TD s = true := by
  unfold parseIp at hp
  cases hpo : parseOctets (gtokens s.data) with
  | none => rw [hpo] at hp; exact Option.noConfusion hp
  | some vs =>
    rw [hpo] at hp
    rcases vs with _ | ⟨a, _ | ⟨b, _ | ⟨c, _ | ⟨d, _ | ⟨e, rest⟩⟩⟩⟩⟩ <;>
      try exact Option.noConfusion hp
    obtain ⟨hlen, hall⟩ := parseOctets_some (gtokens s.data) [a, b, c, d] hpo
    cases hsd : s.data with
    | nil => rw [hsd] at hlen; simp [gtokens] at hlen
    | cons c0 cs0 =>
      rw [hsd] at hlen hall
      have hg : gtokens (c0 :: cs0) = gtokensGo (c0 :: cs0) [] := rfl
      rw [hg] at hlen hall
      rcases hgl : gtokensGo (c0 :: cs0) [] with _ | ⟨t1, _ | ⟨t2, _ | ⟨t3, _ | ⟨t4, _ | ⟨t5, r5⟩⟩⟩⟩⟩ <;>
        rw [hgl] at hlen <;> simp at hlen
      rw [hgl] at hall
      have h1 : octetOk t1 = true := hall t1 (by simp)
      have h2 : octetOk t2 = true := hall t2 (by simp)
      have h3 : octetOk t3 = true := hall t3 (by simp)
      have h4 : octetOk t4 = true := hall t4 (by simp)
      unfold isWellFormedIPv4TD
      rw [hsd]
      unfold splitAll
      rw [splitAllGo_eq_gtokensGo (c0 :: cs0) [], hgl]
      cases hd : endsDot (c0 :: cs0)
      · simp [h1, h2, h3, h4]
      · simp [h1, h2, h3, h4]

/-- C7 counterexample: `"1.2.3.4."` is not a dotted-decimal IPv4 address
of exactly four octets (the claim's notion of well-formed), yet
`isBlocked` admits it when no ranges are configured — `parseIp` accepts a
single trailing dot, because the final `std::getline` call extracts
nothing and fails without producing an empty fifth token. -/
theorem failclosed_cex :
    isWellFormedIPv4 "1.2.3.4." = false
  ∧ isBlocked [] "1.2.3.4." = false := by
  exact ⟨by decide, by decide⟩

/-- C7 amended: every address string that is not of the form of four
dot-separated all-digit octets, each in `[0, 255]`, optionally followed by
a single trailing dot, is blocked (fail closed) regardless of the
configured ranges. -/
theorem failclosed_amended (ranges : List IpRange) (s : String)
    (h : isWellFormedIPv4TD s = false) : isBlocked ranges s = true := by
  cases hp : parseIp s with
  | none => simp [isBlocked, hp]
  | some v =>
    rw [parseIp_some_wellformedTD s v hp] at h
    exact Bool.noConfusion h

theorem failclosed_amended_witness :
    isWellFormedIPv4TD "10.0.0.one" = false
  ∧ isBlocked [] "10.0.0.one" = true :=
  ⟨by decide, failclosed_amended [] "10.0.0.one" (by decide)⟩

/-! ## Claim C3: where the peak queue size is sampled -/

/-- The queue size at the point where `LoadBalancer::run` actually samples
the peak: after the dispatch/worker-tick phase (`processTick`), before the
scaling phase. -/
def midQueueLen (R : Rng) (cfg : Config) (ranges : List IpRange)
    (st : LBState) : Nat :=
  ((processTickLB (maybeAddNewRequests R cfg ranges st)).requestQueue).length

/-- The per-cycle samples taken at the code's sampling point, starting
from state `st`, for `n` cycles. -/
def midSamples (R : Rng) (cfg : Config) (ranges : List IpRange) :
    Nat → LBState → List Nat
  | 0, _ => []
  | n + 1, st =>
    midQueueLen R cfg ranges st
      :: midSamples R cfg ranges n (tickOnce R cfg ranges st)

/-- Written from the claim's words: the per-cycle queue size sampled at
the single well-defined point after the arrival phase and before the
dispatch phase. -/
def specSamples (R : Rng) (cfg : Config) (ranges : List IpRange) :
    Nat → LBState → List Nat
  | 0, _ => []
  | n + 1, st =>
    ((maybeAddNewRequests R cfg ranges st).requestQueue).length
      :: specSamples R cfg ranges n (tickOnce R cfg ranges st)

theorem updatePeak_peak (st : LBState) :
    (updatePeak st).stats.peakQueueSize
      = max st.stats.peakQueueSize st.requestQueue.length := by
  unfold updatePeak
  split
  · rename_i h
    show st.requestQueue.length
        = max st.stats.peakQueueSize st.requestQueue.length
    omega
  · rename_i h
    omega

theorem tickOnce_peak (R : Rng) (cfg : Config) (ranges : List IpRange)
    (st : LBState) :
    (tickOnce R cfg ranges st).stats.peakQueueSize
      = max st.stats.peakQueueSize (midQueueLen R cfg ranges st) := by
  unfold tickOnce midQueueLen
  rw [(balanceLoad_frame cfg _).2, updatePeak_peak,
    (processTickLB_frame _).2.2.1, (maybeAdd_frame R cfg ranges st).2.2.1]

theorem iterateTicks_peak (R : Rng) (cfg : Config) (ranges : List IpRange) :
    ∀ (n : Nat) (st : LBState),
      (iterateTicks R cfg ranges n st).stats.peakQueueSize
        = (midSamples R cfg ranges n st).foldl max st.stats.peakQueueSize
  | 0, _ => rfl
  | n + 1, st => by
    show (iterateTicks R cfg ranges n (tickOnce R cfg ranges st)).stats.peakQueueSize = _
    rw [iterateTicks_peak R cfg ranges n (tickOnce R cfg ranges st)]
    simp only [midSamples, List.foldl_cons]
    rw [tickOnce_peak]

theorem postFill_peak (R : Rng) (cfg : Config) (ranges : List IpRange)
    (entropy fuel : Nat) :
    (postFillState R cfg ranges entropy fuel).stats.peakQueueSize
      = (postFillState R cfg ranges entropy fuel).requestQueue.length := rfl

/-- C3 amended: `peakQueueSize` at the end of a run equals the maximum of
the initial-fill queue size and the per-cycle queue sizes sampled at the
point the code actually samples them — after the dispatch/worker-tick
phase and before the scaling phase (not after arrivals/before dispatch as
the claim states). -/
theorem peak_is_max_post_dispatch (R : Rng) (cfg : Config)
    (ranges : List IpRange) (entropy fuel : Nat) :
    (runState R cfg ranges entropy fuel).stats.peakQueueSize
      = (midSamples R (clampInit cfg) ranges
          (clampInit cfg).simulationCycles.toNat
          (postFillState R cfg ranges entropy fuel)).foldl max
        ((postFillState R cfg ranges entropy fuel).requestQueue.length) := by
  have h1 : ∀ st : LBState,
      (finishStats st).stats.peakQueueSize = st.stats.peakQueueSize :=
    fun st => rfl
  simp only [runState]
  rw [h1, iterateTicks_peak, postFill_peak]

/-- A one-cycle run with one initial worker, one pre-filled request and
one forced arrival: the queue after the arrival phase holds 2 requests,
but the worker takes one before the code samples, so the recorded peak is
1 while a sample taken after arrivals and before dispatch reads 2. -/
def cfgC : Config :=
  { initialServers := 1, simulationCycles := 1, initialQueueMultiplier := 1,
    minQueuePerServer := 0, maxQueuePerServer := 10, scalingCooldownCycles := 25,
    minRequestTime := 1, maxRequestTime := 1, arrivalProbabilityPercent := 100,
    maxNewRequestsPerCycle := 1, statusPrintInterval := 0, seed := 1 }

/-- C3 counterexample: the recorded `peakQueueSize` of the run is 1, but
the maximum over all ticks of the queue size sampled after the arrival
phase and before the dispatch phase is 2 — the code does not sample at
the claimed point. -/
theorem peak_sample_point_cex :
    (runState RLin cfgC [] 0 2).stats.peakQueueSize = 1
  ∧ (specSamples RLin (clampInit cfgC) []
      ((clampInit cfgC).simulationCycles.toNat)
      (postFillState RLin cfgC [] 0 2)).foldl max 0 = 2 :=
  ⟨by decide, by decide⟩

/-! ## Claim C8: determinism for nonzero seeds -/

theorem clampInit_seed (cfg : Config) : (clampInit cfg).seed = cfg.seed := by
  unfold clampInit
  split <;> rfl

/-- C8: with `seed ≠ 0` the constructor seeds the generator from the
configuration alone, so the entropy source (`std::random_device`, modelled
by the `entropy` argument) has no influence: two runs with the same seed
and configuration produce the same final stats, the same factory trace
(the full sequence of generated requests — addresses, costs and all), and
in fact identical final states.  This holds for every generator
implementation `R`. -/
theorem run_deterministic_given_seed (R : Rng) (cfg : Config)
    (ranges : List IpRange) (fuel e1 e2 : Nat) (h : cfg.seed ≠ 0) :
    (runState R cfg ranges e1 fuel).stats = (runState R cfg ranges e2 fuel).stats
    ∧ (runState R cfg ranges e1 fuel).trace = (runState R cfg ranges e2 fuel).trace
    ∧ runState R cfg ranges e1 fuel = runState R cfg ranges e2 fuel := by
  have hinit : initialState R (clampInit cfg) e1
      = initialState R (clampInit cfg) e2 := by
    unfold initialState
    rw [clampInit_seed]
    simp [h]
  have hrun : runState R cfg ranges e1 fuel = runState R cfg ranges e2 fuel := by
    simp only [runState, postFillState]
    rw [hinit]
  exact ⟨by rw [hrun], by rw [hrun], hrun⟩

def cfgS : Config :=
  { initialServers := 1, simulationCycles := 2, initialQueueMultiplier := 1,
    minQueuePerServer := 0, maxQueuePerServer := 10, scalingCooldownCycles := 2,
    minRequestTime := 1, maxRequestTime := 2, arrivalProbabilityPercent := 100,
    maxNewRequestsPerCycle := 2, statusPrintInterval := 0, seed := 7 }

theorem run_deterministic_given_seed_witness :
    cfgS.seed ≠ 0
  ∧ runState RLin cfgS [] 0 3 = runState RLin cfgS [] 99 3 :=
  ⟨by decide,
   (run_deterministic_given_seed RLin cfgS [] 3 0 99 (by decide)).2.2⟩

/-! ## Claim C9: the pre-fill loop target and its termination -/

/-- The request/generator pair `LoadBalancer::generateRequest` draws next
from state `st`. -/
def nextReq (R : Rng) (cfg : Config) (st : LBState) : Request × Nat :=
  randomRequest R st.nextRequestId st.gen cfg.minRequestTime cfg.maxRequestTime

theorem admittedCount_cons (ranges : List IpRange) (r : Request)
    (l : List Request) :
    admittedCount ranges (r :: l)
      = admittedCount ranges l + (if isBlocked ranges r.ipIn then 0 else 1) := by
  unfold admittedCount
  rw [List.countP_cons]
  cases h : isBlocked ranges r.ipIn <;> simp [h]

theorem addGenerated_step (R : Rng) (cfg : Config) (ranges : List IpRange)
    (st : LBState) :
    (addGenerated R cfg ranges st).gen = (nextReq R cfg st).2
    ∧ (addGenerated R cfg ranges st).nextRequestId = st.nextRequestId + 1
    ∧ ((isBlocked ranges (nextReq R cfg st).1.ipIn = true
        ∧ (addGenerated R cfg ranges st).requestQueue = st.requestQueue)
      ∨ (isBlocked ranges (nextReq R cfg st).1.ipIn = false
        ∧ (addGenerated R cfg ranges st).requestQueue
            = st.requestQueue ++ [(nextReq R cfg st).1])) := by
  have hrw : addGenerated R cfg ranges st
      = addRequest ranges (generateRequest R cfg st).2 (generateRequest R cfg st).1 :=
    rfl
  obtain ⟨hb, he⟩ | ⟨hb, he⟩ := addRequest_spec ranges (generateRequest R cfg st).2
    (generateRequest R cfg st).1
  · refine ⟨?_, ?_, Or.inl ⟨hb, ?_⟩⟩ <;> (rw [hrw, he]; rfl)
  · refine ⟨?_, ?_, Or.inr ⟨hb, ?_⟩⟩ <;> (rw [hrw, he]; rfl)

/-- If among the next `n` requests the factory will produce, enough are
admitted to cover the remaining deficit, the fill loop stops with the
queue at exactly the target size. -/
theorem fillLoop_exact (R : Rng) (cfg : Config) (ranges : List IpRange) :
    ∀ (n : Nat) (st : LBState) (target : Int),
      (st.requestQueue.length : Int) ≤ target →
      target ≤ (st.requestQueue.length : Int)
        + (admittedCount ranges (genStream R cfg st.gen st.nextRequestId n) : Int) →
      ((fillLoop R cfg ranges n target st).requestQueue.length : Int) = target
  | 0, st, target, h1, h2 => by
    have hc : admittedCount ranges (genStream R cfg st.gen st.nextRequestId 0) = 0 := rfl
    rw [hc] at h2
    show ((st.requestQueue.length : Int)) = target
    omega
  | n + 1, st, target, h1, h2 => by
    have hfl : fillLoop R cfg ranges (n + 1) target st
        = if (st.requestQueue.length : Int) < target then
            fillLoop R cfg ranges n target (addGenerated R cfg ranges st)
          else st := rfl
    by_cases hlt : (st.requestQueue.length : Int) < target
    · rw [hfl, if_pos hlt]
      obtain ⟨hg, hn, hq⟩ := addGenerated_step R cfg ranges st
      have hcons : genStream R cfg st.gen st.nextRequestId (n + 1)
          = (nextReq R cfg st).1
            :: genStream R cfg (nextReq R cfg st).2 (st.nextRequestId + 1) n := rfl
      rw [hcons, admittedCount_cons] at h2
      have hstream : genStream R cfg (addGenerated R cfg ranges st).gen
          (addGenerated R cfg ranges st).nextRequestId n
          = genStream R cfg (nextReq R cfg st).2 (st.nextRequestId + 1) n := by
        rw [hg, hn]
      rcases hq with ⟨hb, hqe⟩ | ⟨hb, hqe⟩
      · apply fillLoop_exact R cfg ranges n (addGenerated R cfg ranges st) target
        · rw [hqe]; omega
        · rw [hstream, hqe]
          rw [hb] at h2
          simp at h2
          omega
      · apply fillLoop_exact R cfg ranges n (addGenerated R cfg ranges st) target
        · rw [hqe]
          have hlen : ((st.requestQueue ++ [(nextReq R cfg st).1]).length : Int)
              = (st.requestQueue.length : Int) + 1 := by
            simp
          rw [hlen]
          omega
        · rw [hstream, hqe]
          rw [hb] at h2
          simp at h2
          have hlen : ((st.requestQueue ++ [(nextReq R cfg st).1]).length : Int)
              = (st.requestQueue.length : Int) + 1 := by
            simp
          rw [hlen]
          omega
    · rw [hfl, if_neg hlt]
      omega

/-- C9: starting from an empty queue, `fillInitialQueue` exits with the
queue size exactly equal to the target `initialServers ×
initialQueueMultiplier` (admission is applied to each generated request:
blocked requests do not enter the queue, so the loop is governed by the
queue size, not the generated count), provided the admission filter admits
at least target-many of the first `n` requests the factory produces —
`n` iterations of the source's unbounded `while` loop then suffice. -/
theorem fill_loop_exact_exit (R : Rng) (cfg : Config) (ranges : List IpRange)
    (st : LBState) (n : Nat) (hempty : st.requestQueue = [])
    (hpos : 0 ≤ cfg.initialServers * cfg.initialQueueMultiplier)
    (hadm : cfg.initialServers * cfg.initialQueueMultiplier
      ≤ (admittedCount ranges (genStream R cfg st.gen st.nextRequestId n) : Int)) :
    ((fillInitialQueue R cfg ranges n st).requestQueue.length : Int)
      = cfg.initialServers * cfg.initialQueueMultiplier := by
  show ((fillLoop R cfg ranges n
      (cfg.initialServers * cfg.initialQueueMultiplier) st).requestQueue.length : Int) = _
  apply fillLoop_exact R cfg ranges n st
  · rw [hempty]; simpa using hpos
  · rw [hempty]
    simpa using hadm

def cfg9 : Config :=
  { initialServers := 1, simulationCycles := 0, initialQueueMultiplier := 3,
    minQueuePerServer := 0, maxQueuePerServer := 10, scalingCooldownCycles := 2,
    minRequestTime := 1, maxRequestTime := 1, arrivalProbabilityPercent := 0,
    maxNewRequestsPerCycle := 1, statusPrintInterval := 0, seed := 1 }

def stEmpty : LBState :=
  { servers := [], requestQueue := [], cooldownTimer := 0, nextRequestId := 1,
    gen := 0, stats := SimulationStats.init, trace := [] }

theorem fill_loop_exact_exit_witness :
    ((fillInitialQueue RLin cfg9 [] 3 stEmpty).requestQueue.length : Int)
      = cfg9.initialServers * cfg9.initialQueueMultiplier :=
  fill_loop_exact_exit RLin cfg9 [] stEmpty 3 rfl (by decide) (by decide)

end LBSim
